import Mathlib

/-!
Shallow embedding of the CraveCraze data-cleaning and aggregation-insight
pipeline (src/cravecraze.py) together with proofs about its behaviour.

The pipeline cleans an uploaded table (column-name normalization, schema
validation, date and numeric coercion), filters it by a date range plus
category selections, aggregates it (sentiment counts, daily engagement,
platform engagement, media-type counts, per-location engagement) and emits
templated insight strings.
-/

namespace CraveCraze

/-- A calendar date, as produced by the date coercion of the cleaning step. -/
structure Date where
  year : Nat
  month : Nat
  day : Nat
deriving DecidableEq, Repr

/-- Numeric key giving the chronological order of dates (months and days are
two decimal digits, so lexicographic order on year, month, day agrees with
order on the key). -/
def Date.key (d : Date) : Nat :=
  d.year * 10000 + d.month * 100 + d.day

/-- One row of the uploaded table, before cleaning.  The `date` and
`engagements` cells are raw text; `none` in `engagements` models an empty
(NaN) cell, `none` in `location` a null location. -/
structure RawRecord where
  date : String
  platform : String
  sentiment : String
  location : Option String
  engagements : Option String
  media_type : String
deriving DecidableEq, Repr

/-- An uploaded table: its header of arbitrary column names, and its rows. -/
structure RawTable where
  header : List String
  rows : List RawRecord
deriving DecidableEq, Repr

/-- One row of the cleaned table: `date` is a calendar date and
`engagements` is numeric, as guaranteed by `clean_data` on success. -/
structure Record where
  date : Date
  platform : String
  sentiment : String
  location : Option String
  engagements : Int
  media_type : String
deriving DecidableEq, Repr

/-- Parses a nonempty all-digit string as a natural number. -/
def parseNat (s : String) : Option Nat :=
  let cs := s.toList
  if cs ≠ [] ∧ cs.all (fun c => c.isDigit) then
    some (cs.foldl (fun n c => n * 10 + (c.toNat - 48)) 0)
  else
    none

/-- Models the date parsing done by `pd.to_datetime` on one cell, for ISO
`YYYY-MM-DD` text: any other shape fails to parse. -/
def parseDate (s : String) : Option Date :=
  match (s.toList.splitOn '-').map (fun cs => parseNat (String.mk cs)) with
  | [some y, some m, some d] =>
      if 1 ≤ m ∧ m ≤ 12 ∧ 1 ≤ d ∧ d ≤ 31 then some ⟨y, m, d⟩ else none
  | _ => none

/-- Models the numeric parsing done by `pd.to_numeric` on one cell: an
optional minus sign followed by digits; anything else fails to parse. -/
def parseNumeric (s : String) : Option Int :=
  match s.toList with
  | '-' :: rest => (parseNat (String.mk rest)).map (fun n => -(n : Int))
  | _ => (parseNat s).map (fun n => (n : Int))

/-- ASCII lower-casing of one character, as `str.lower` acts on ASCII. -/
def lowerChar (c : Char) : Char :=
  if 65 ≤ c.toNat ∧ c.toNat ≤ 90 then Char.ofNat (c.toNat + 32) else c

/-- Strips leading and trailing spaces, as `str.strip` does (the embedding
treats the space character as the only whitespace in column names). -/
def stripChars (cs : List Char) : List Char :=
  ((cs.dropWhile (fun c => c = ' ')).reverse.dropWhile (fun c => c = ' ')).reverse

/-- Column-name normalization from `clean_data`:
`col.strip().lower().replace(' ', '_')`. -/
def normalizeColName (c : String) : String :=
  String.mk ((stripChars c.toList).map (fun ch => if lowerChar ch = ' ' then '_' else lowerChar ch))

/-- The required columns checked by `clean_data`. -/
def requiredColumns : List String :=
  ["date", "platform", "sentiment", "location", "engagements", "media_type"]

/-- The missing-column computation of `clean_data`: required columns not
found among the normalized column names. -/
def missingColumns (header : List String) : List String :=
  requiredColumns.filter (fun c => ¬ (header.map normalizeColName).contains c)

/-- Cleans one row: the date must parse (else the whole run fails), a missing
`engagements` cell becomes 0 (`fillna(0)`), while a present cell must parse
numerically (else the whole run fails, since `pd.to_numeric` raises). -/
def cleanRecord (r : RawRecord) : Option Record :=
  match parseDate r.date with
  | none => none
  | some d =>
    match r.engagements with
    | none =>
        some { date := d, platform := r.platform, sentiment := r.sentiment,
               location := r.location, engagements := 0, media_type := r.media_type }
    | some s =>
      match parseNumeric s with
      | none => none
      | some n =>
          some { date := d, platform := r.platform, sentiment := r.sentiment,
                 location := r.location, engagements := n, media_type := r.media_type }

/-- Cleans all rows; any row whose date or present engagements cell fails to
parse fails the whole conversion, mirroring the `try`/`except` around the
column-wide `pd.to_datetime` and `pd.to_numeric` calls. -/
def clean_rows : List RawRecord → Option (List Record)
  | [] => some []
  | r :: rs =>
    match cleanRecord r, clean_rows rs with
    | some c, some cs => some (c :: cs)
    | _, _ => none

/-- The `clean_data` function: normalizes column names, fails (returns
`none`, the embedding of `return None`) when required columns are missing,
then coerces the `date` and `engagements` columns. -/
def clean_data (t : RawTable) : Option (List Record) :=
  if missingColumns t.header ≠ [] then none
  else clean_rows t.rows

/-- The filter selections of the sidebar: a date range plus one selection
string per category, where the literal string `All` is the value offered as
the no-constraint default. -/
structure FilterSpec where
  start_date : Date
  end_date : Date
  selected_platform : String
  selected_sentiment : String
  selected_media_type : String
deriving DecidableEq, Repr

/-- The date-range predicate of the filtering logic:
`start_date <= record.date <= end_date`. -/
def dateInRange (fs : FilterSpec) (r : Record) : Bool :=
  decide (fs.start_date.key ≤ r.date.key) && decide (r.date.key ≤ fs.end_date.key)

/-- The filtering logic building `filtered_df`: the date-range filter
followed by one equality filter per category, each applied only when the
selection differs from the literal string `All`. -/
def filtered_df (ds : List Record) (fs : FilterSpec) : List Record :=
  let d1 := ds.filter (fun r => dateInRange fs r)
  let d2 := if fs.selected_platform ≠ "All"
    then d1.filter (fun r => r.platform = fs.selected_platform) else d1
  let d3 := if fs.selected_sentiment ≠ "All"
    then d2.filter (fun r => r.sentiment = fs.selected_sentiment) else d2
  if fs.selected_media_type ≠ "All"
    then d3.filter (fun r => r.media_type = fs.selected_media_type) else d3

/-- The conjunction of all four filter predicates, with each category
predicate vacuous when its selection is the string `All`. -/
def fullPred (fs : FilterSpec) (r : Record) : Bool :=
  dateInRange fs r
  && (decide (fs.selected_platform = "All") || decide (r.platform = fs.selected_platform))
  && (decide (fs.selected_sentiment = "All") || decide (r.sentiment = fs.selected_sentiment))
  && (decide (fs.selected_media_type = "All") || decide (r.media_type = fs.selected_media_type))

/-- Inserts an element into a list sorted descending by `key`, placing it
before later elements of equal key (stability: in `sortDesc` the inserted
element stood earlier in the input). -/
def insDesc (key : α → Int) (x : α) : List α → List α
  | [] => [x]
  | y :: ys => if key x < key y then y :: insDesc key x ys else x :: y :: ys

/-- Stable insertion sort, descending by `key`: ties keep their input
order, as pandas resolves `value_counts` ties by first appearance. -/
def sortDesc (key : α → Int) (l : List α) : List α :=
  l.foldr (insDesc key) []

/-- Removes duplicates keeping the first occurrence of each element, the
key order produced by the pandas grouping machinery. -/
def firstDedup [DecidableEq α] : List α → List α
  | [] => []
  | x :: xs => x :: (firstDedup xs).filter (fun y => y ≠ x)

/-- Sum of the `engagements` column over a cleaned table. -/
def sumEng (ds : List Record) : Int :=
  (ds.map (fun r => r.engagements)).sum

/-- `groupby('sentiment')` record counts sorted descending, embedding
`df['sentiment'].value_counts().sort_values(ascending=False)`. -/
def sentimentCounts (ds : List Record) : List (String × Nat) :=
  sortDesc (fun p => (p.2 : Int))
    ((firstDedup (ds.map (fun r => r.sentiment))).map
      (fun s => (s, (ds.filter (fun r => r.sentiment = s)).length)))

/-- `groupby('media_type')` record counts sorted descending, embedding
`df['media_type'].value_counts().sort_values(ascending=False)`. -/
def mediaTypeCounts (ds : List Record) : List (String × Nat) :=
  sortDesc (fun p => (p.2 : Int))
    ((firstDedup (ds.map (fun r => r.media_type))).map
      (fun m => (m, (ds.filter (fun r => r.media_type = m)).length)))

/-- `groupby('platform')['engagements'].sum().sort_values(ascending=False)`:
per-platform engagement sums, descending. -/
def aggregate_platform_engagement (ds : List Record) : List (String × Int) :=
  sortDesc (fun p => p.2)
    ((firstDedup (ds.map (fun r => r.platform))).map
      (fun p => (p, sumEng (ds.filter (fun r => r.platform = p)))))

/-- The non-null location values of a table, first occurrences first
(`groupby` drops null keys). -/
def locationKeys (ds : List Record) : List String :=
  firstDedup (ds.filterMap (fun r => r.location))

/-- `groupby('location')['engagements'].sum().sort_values(ascending=False).head(5)`
(equivalently `nlargest(5)`): per-location engagement sums over non-null
locations, descending, truncated to the top 5. -/
def aggregate_location_engagement (ds : List Record) : List (String × Int) :=
  (sortDesc (fun p => p.2)
    ((locationKeys ds).map
      (fun loc => (loc, sumEng (ds.filter (fun r => r.location = some loc)))))).take 5

/-- The distinct dates of a table in chronological order (`groupby('date')`
sorts its keys ascending). -/
def sortedDates (ds : List Record) : List Date :=
  sortDesc (fun d => -(d.key : Int)) (firstDedup (ds.map (fun r => r.date)))

/-- The summed engagement of one calendar date. -/
def sumFor (ds : List Record) (d : Date) : Int :=
  sumEng (ds.filter (fun r => r.date = d))

/-- `groupby('date')['engagements'].sum()`: the chronological daily
engagement series. -/
def engagement_by_date (ds : List Record) : List (Date × Int) :=
  (sortedDates ds).map (fun d => (d, sumFor ds d))

/-- English month name, as `strftime` renders `%B`. -/
def monthName (m : Nat) : String :=
  if m = 1 then ("January") else if m = 2 then ("February")
  else if m = 3 then ("March") else if m = 4 then ("April")
  else if m = 5 then ("May") else if m = 6 then ("June")
  else if m = 7 then ("July") else if m = 8 then ("August")
  else if m = 9 then ("September") else if m = 10 then ("October")
  else if m = 11 then ("November") else if m = 12 then ("December") else ("")

/-- Two-digit zero-padded day, as `strftime` renders `%d`. -/
def pad2 (n : Nat) : String :=
  if n < 10 then ("0") ++ toString n else toString n

/-- The `strftime` format string of the peak-engagement insight. -/
def formatDateLong (d : Date) : String :=
  monthName d.month ++ (" ") ++ pad2 d.day ++ (", ") ++ toString d.year

/-- Groups a reversed digit list into threes, for thousands separators. -/
def chunk3 : List Char → List (List Char)
  | [] => []
  | [a] => [[a]]
  | [a, b] => [[a, b]]
  | a :: b :: c :: rest => [a, b, c] :: chunk3 rest

/-- Inserts thousands separators into a digit string. -/
def insertCommas (s : String) : String :=
  String.intercalate (",")
    (((chunk3 s.toList.reverse).map (fun g => String.mk g.reverse)).reverse)

/-- Renders an integer with thousands separators. -/
def formatCommaInt (n : Int) : String :=
  (if n < 0 then ("-") else ("")) ++ insertCommas (toString n.natAbs)

/-- The quotient `a / b` for positive `b`, rounded to the nearest integer
with ties to the even neighbour, as the `.0f`/`.1f` format specifications
round their (here exactly represented) argument. -/
def divRoundHalfEven (a b : Int) : Int :=
  let q := a.fdiv b
  let r := a - q * b
  if 2 * r < b then q
  else if b < 2 * r then q + 1
  else if q % 2 = 0 then q else q + 1

/-- Renders `part` as a percentage of `whole` with one decimal place, as
the `.1f` format renders `part / whole * 100`. -/
def pctOneDecimal (part whole : Int) : String :=
  let tenths := divRoundHalfEven (part * 1000) whole
  toString (tenths / 10) ++ (".") ++ toString ((tenths % 10).natAbs)

/-- The dominant-sentiment template string. -/
def dominantLine (s : String) (count total : Nat) : String :=
  ("**Dominant Sentiment:** The audience reception is largely **") ++ s ++
    ("**, accounting for ") ++ pctOneDecimal (count : Int) (total : Int) ++
    ("% of all posts.")

/-- The minority-sentiment template string. -/
def minorityLine (s : String) : String :=
  ("**Data Anomaly:** The **") ++ s ++
    ("** sentiment is a significant minority, suggesting a need to investigate specific posts driving this feeling.")

/-- The fixed strategic-framing sentence closing every sentiment insight. -/
def strategicLine : String :=
  ("**Strategic Trend:** The current sentiment mix indicates the overall tone of the content. Efforts should focus on increasing positive interactions.")

/-- The `get_sentiment_insights` generator. -/
def get_sentiment_insights (ds : List Record) : List String :=
  if ds.isEmpty then []
  else
    let counts := sentimentCounts ds
    let total := ds.length
    let part1 : List String :=
      match counts.head? with
      | none => []
      | some top => [dominantLine top.1 top.2 total]
    let part2 : List String :=
      if counts.length > 2 then
        match counts.getLast? with
        | none => []
        | some low => [minorityLine low.1]
      else []
    part1 ++ part2 ++ [strategicLine]

/-- First value of the daily series (`iloc[0]`). -/
def firstVal (series : List (Date × Int)) : Int :=
  (series.map (fun p => p.2)).headD 0

/-- Last value of the daily series (`iloc[-1]`). -/
def lastVal (series : List (Date × Int)) : Int :=
  (series.map (fun p => p.2)).getLastD 0

/-- The running `idxmax` scan: keeps the earlier entry on ties, as pandas
`idxmax` returns the first maximising index. -/
def idxmaxFrom (best : Date × Int) : List (Date × Int) → Date
  | [] => best.1
  | p :: ps => if best.2 < p.2 then idxmaxFrom p ps else idxmaxFrom best ps

/-- `idxmax` over the daily series (its date of maximum summed engagement). -/
def peakDate (series : List (Date × Int)) : Date :=
  match series with
  | [] => ⟨0, 0, 0⟩
  | p :: ps => idxmaxFrom p ps

/-- The mean of the daily series (`.mean()`), rounded to the nearest whole
number as the `,.0f` format renders it. -/
def seriesMeanRounded (series : List (Date × Int)) : Int :=
  divRoundHalfEven ((series.map (fun p => p.2)).sum) (series.length : Int)

/-- The peak-engagement template string. -/
def peakLine (d : Date) : String :=
  ("**Peak Engagement:** The highest engagement was on **") ++ formatDateLong d ++
    ("**, suggesting a highly successful post or event that should be analyzed.")

/-- The trend-direction template string: "upward" exactly on `true`. -/
def trendLine (up : Bool) : String :=
  ("**Emerging Trend:** The engagement trend shows a general **") ++
    (if up then ("upward") else ("stable or declining")) ++ ("** trajectory.")

/-- The mean-daily-engagement template string. -/
def avgLine (n : Int) : String :=
  ("**Performance Context:** The average engagement per day is **") ++
    formatCommaInt n ++ ("**, serving as a baseline for future content.")

/-- The `get_engagement_trend_insights` generator.  Note that the guard is
on the number of ROWS of the table (`len(df) < 2`), not on the length of
the date-grouped series. -/
def get_engagement_trend_insights (ds : List Record) : List String :=
  if ds.length < 2 then []
  else
    let series := engagement_by_date ds
    if series.isEmpty then []
    else
      [peakLine (peakDate series),
       trendLine (decide (lastVal series > firstVal series)),
       avgLine (seriesMeanRounded series)]

/-- The `get_platform_insights` generator. -/
def get_platform_insights (ds : List Record) : List String :=
  if ds.isEmpty then []
  else
    let pe := aggregate_platform_engagement ds
    let total := (pe.map (fun p => p.2)).sum
    let part1 : List String :=
      match pe.head? with
      | none => []
      | some top =>
          [("**Key Finding:** **") ++ top.1 ++
           ("** is the primary engagement driver, accounting for **") ++
           pctOneDecimal top.2 total ++ ("%** of the total.")]
    let part2 : List String :=
      if pe.length > 1 then
        [("**Performance Gap:** There is a clear performance difference between platforms, highlighting where resources are most effective.")]
      else []
    part1 ++ part2 ++
      [("**Strategic Implication:** Content and ad spend should be prioritized towards the most engaging platforms.")]

/-- The `get_media_type_insights` generator. -/
def get_media_type_insights (ds : List Record) : List String :=
  if ds.isEmpty then []
  else
    let mt := mediaTypeCounts ds
    let part1 : List String :=
      match mt.head? with
      | none => []
      | some top =>
          [("**Dominant Format:** The content strategy is heavily reliant on **") ++
           top.1 ++ ("**.")]
    let part2 : List String :=
      if mt.length > 1 then
        match mt.getLast? with
        | none => []
        | some low =>
            [("**Untapped Potential:** The least used format, **") ++ low.1 ++
             ("**, could be an area for growth and audience diversification.")]
      else []
    part1 ++ part2 ++
      [("**Content Mix:** The visual balance suggests the diversity of the content portfolio. A balanced mix is key to reaching different audience segments.")]

/-- The `get_location_insights` generator (for a cleaned table the
`location` column always exists, so the `not in df.columns` branch of the
source never fires and is not represented). -/
def get_location_insights (ds : List Record) : List String :=
  if ds.isEmpty || ds.all (fun r => r.location.isNone) then []
  else
    let le := aggregate_location_engagement ds
    let part1 : List String :=
      match le.head? with
      | none => []
      | some top =>
          [("**Primary Market:** Engagement is heavily concentrated in **") ++
           top.1 ++ ("**.")]
    let part2 : List String :=
      if le.length > 1 then
        [("**Audience Concentration:** A noticeable drop-off in engagement after the top location indicates a hyper-concentrated audience.")]
      else []
    part1 ++ part2 ++
      [("**Geo-Targeting Opportunity:** The top locations are clear candidates for geo-targeted campaigns and localized content.")]

/-- Everything the dashboard derives from one upload and one filter
selection: the filtered table, the five aggregates and the five insight
lists. -/
structure DashboardOutput where
  filtered : List Record
  sentiment_agg : List (String × Nat)
  trend_agg : List (Date × Int)
  platform_agg : List (String × Int)
  media_type_agg : List (String × Nat)
  location_agg : List (String × Int)
  sentiment_insights : List String
  trend_insights : List String
  platform_insights : List String
  media_type_insights : List String
  location_insights : List String
deriving DecidableEq, Repr

/-- The whole pipeline run on one upload: when `clean_data` fails the app
shows the error and renders nothing, so no filtering, aggregation or
insight generation happens (`none`); on success the filtered table and all
chart and insight inputs are produced. -/
def runPipeline (t : RawTable) (fs : FilterSpec) : Option DashboardOutput :=
  match clean_data t with
  | none => none
  | some ds =>
    let f := filtered_df ds fs
    some { filtered := f,
           sentiment_agg := sentimentCounts f,
           trend_agg := engagement_by_date f,
           platform_agg := aggregate_platform_engagement f,
           media_type_agg := mediaTypeCounts f,
           location_agg := aggregate_location_engagement f,
           sentiment_insights := get_sentiment_insights f,
           trend_insights := get_engagement_trend_insights f,
           platform_insights := get_platform_insights f,
           media_type_insights := get_media_type_insights f,
           location_insights := get_location_insights f }

/-! ### Sample data -/

/-- A header carrying all six required columns under their CSV names. -/
def goodHeader : List String :=
  ["Date", "Platform", "Sentiment", "Location", "Engagements", "Media Type"]

/-- A raw row with fully parseable cells. -/
def rawRow1 : RawRecord :=
  ⟨"2024-01-01", "X", "Positive", some "NY", some "10", "Video"⟩

/-- A raw row whose engagements cell holds non-numeric text. -/
def rawRowBad : RawRecord :=
  ⟨"2024-01-01", "Y", "Negative", some "NY", some "n/a", "Photo"⟩

/-- A raw row with an empty (missing) engagements cell. -/
def rawRowNoEng : RawRecord :=
  ⟨"2024-01-02", "Y", "Negative", some "NY", none, "Photo"⟩

/-- A raw row whose date cell cannot be parsed. -/
def rawRowBadDate : RawRecord :=
  ⟨"not-a-date", "Y", "Negative", some "NY", some "5", "Photo"⟩

/-- A table whose header lacks the location column. -/
def tMissing : RawTable :=
  ⟨["Date", "Platform", "Sentiment", "Engagements", "Media Type"], []⟩

/-- A schema-valid table containing a non-numeric engagements cell. -/
def tBadEng : RawTable := ⟨goodHeader, [rawRow1, rawRowBad]⟩

/-- A schema-valid table containing a missing engagements cell. -/
def tNoEng : RawTable := ⟨goodHeader, [rawRow1, rawRowNoEng]⟩

/-- A schema-valid table containing an unparseable date cell. -/
def tBadDate : RawTable := ⟨goodHeader, [rawRowBadDate]⟩

/-- Cleaned counterpart of `rawRow1`. -/
def rec1 : Record := ⟨⟨2024, 1, 1⟩, "X", "Positive", some "NY", 10, "Video"⟩

/-- A cleaned record sharing the date of `rec1`. -/
def rec2 : Record := ⟨⟨2024, 1, 1⟩, "Y", "Negative", some "NY", 5, "Photo"⟩

/-- A cleaned record on a later date. -/
def rec3 : Record := ⟨⟨2024, 1, 2⟩, "X", "Neutral", some "LA", 7, "Video"⟩

/-- Cleaned counterpart of `rawRowNoEng`. -/
def recNoEng : Record := ⟨⟨2024, 1, 2⟩, "Y", "Negative", some "NY", 0, "Photo"⟩

/-- A cleaned record whose platform is literally the sentinel string. -/
def recAll : Record := ⟨⟨2024, 1, 1⟩, "All", "Positive", some "NY", 3, "Video"⟩

/-- A cleaned record with a null location. -/
def recNull : Record := ⟨⟨2024, 1, 1⟩, "X", "Positive", none, 4, "Video"⟩

/-- A selection keeping the whole of 2024 with every category at `All`. -/
def fsAll : FilterSpec := ⟨⟨2024, 1, 1⟩, ⟨2024, 12, 31⟩, "All", "All", "All"⟩

/-! ### Sorting and grouping lemmas -/

theorem insDesc_perm (key : α → Int) (x : α) (l : List α) :
    List.Perm (insDesc key x l) (x :: l) := by
  induction l with
  | nil => simp [insDesc]
  | cons y ys ih =>
    by_cases h : key x < key y
    · simp only [insDesc, if_pos h]
      exact (ih.cons y).trans (List.Perm.swap x y ys)
    · simp [insDesc, if_neg h]

theorem sortDesc_perm (key : α → Int) (l : List α) :
    List.Perm (sortDesc key l) l := by
  induction l with
  | nil => simp [sortDesc]
  | cons y ys ih =>
    have : sortDesc key (y :: ys) = insDesc key y (sortDesc key ys) := rfl
    rw [this]
    exact (insDesc_perm key y (sortDesc key ys)).trans (ih.cons y)

theorem mem_sortDesc (key : α → Int) (l : List α) (a : α) :
    a ∈ sortDesc key l ↔ a ∈ l :=
  (sortDesc_perm key l).mem_iff

theorem length_sortDesc (key : α → Int) (l : List α) :
    (sortDesc key l).length = l.length :=
  (sortDesc_perm key l).length_eq

theorem insDesc_sorted (key : α → Int) (x : α) (l : List α)
    (h : List.Pairwise (fun a b => key b ≤ key a) l) :
    List.Pairwise (fun a b => key b ≤ key a) (insDesc key x l) := by
  induction l with
  | nil => simp [insDesc]
  | cons y ys ih =>
    rcases List.pairwise_cons.mp h with ⟨hy, hys⟩
    by_cases hxy : key x < key y
    · simp only [insDesc, if_pos hxy]
      refine List.pairwise_cons.mpr ⟨?_, ih hys⟩
      intro b hb
      rcases List.mem_cons.mp ((insDesc_perm key x ys).mem_iff.mp hb) with hb | hb
      · exact hb ▸ le_of_lt hxy
      · exact hy b hb
    · simp only [insDesc, if_neg hxy]
      refine List.pairwise_cons.mpr ⟨?_, h⟩
      intro b hb
      rcases List.mem_cons.mp hb with hb | hb
      · exact hb ▸ le_of_not_lt hxy
      · exact le_trans (hy b hb) (le_of_not_lt hxy)

theorem sortDesc_sorted (key : α → Int) (l : List α) :
    List.Pairwise (fun a b => key b ≤ key a) (sortDesc key l) := by
  induction l with
  | nil => simp [sortDesc]
  | cons y ys ih => exact insDesc_sorted key y (sortDesc key ys) ih

theorem sorted_head_max (key : α → Int) (x : α) (l : List α)
    (h : List.Pairwise (fun a b => key b ≤ key a) (x :: l)) :
    ∀ p ∈ x :: l, key p ≤ key x := by
  intro p hp
  rcases List.mem_cons.mp hp with hp | hp
  · exact hp ▸ le_refl _
  · exact (List.pairwise_cons.mp h).1 p hp

theorem sorted_getLast_min (key : α → Int) :
    ∀ (l : List α) (h : l ≠ []),
      List.Pairwise (fun a b => key b ≤ key a) l →
      ∀ x ∈ l, key (l.getLast h) ≤ key x := by
  intro l
  induction l with
  | nil => intro h; exact absurd rfl h
  | cons a t ih =>
    intro h hs x hx
    cases t with
    | nil =>
      rcases List.mem_cons.mp hx with hx | hx
      · simp [hx, List.getLast]
      · exact absurd hx (List.not_mem_nil x)
    | cons b u =>
      have ht : b :: u ≠ [] := by simp
      have hlast : (a :: b :: u).getLast h = (b :: u).getLast ht :=
        List.getLast_cons ht
      rcases List.pairwise_cons.mp hs with ⟨ha, hs2⟩
      rcases List.mem_cons.mp hx with hx | hx
      · rw [hlast, hx]
        exact le_trans (ih ht hs2 _ (List.getLast_mem ht)) (ha _ (List.getLast_mem ht)) |>.trans (le_refl _) |>.trans_eq rfl
      · rw [hlast]
        exact ih ht hs2 x hx

theorem mem_firstDedup [DecidableEq α] (l : List α) (a : α) :
    a ∈ firstDedup l ↔ a ∈ l := by
  induction l with
  | nil => simp [firstDedup]
  | cons x xs ih =>
    simp only [firstDedup, List.mem_cons, List.mem_filter]
    constructor
    · rintro (rfl | ⟨hmem, _⟩)
      · exact Or.inl rfl
      · exact Or.inr (ih.mp hmem)
    · rintro (rfl | hmem)
      · exact Or.inl rfl
      · by_cases hax : a = x
        · exact Or.inl hax
        · exact Or.inr ⟨ih.mpr hmem, by simpa using hax⟩

theorem firstDedup_nodup [DecidableEq α] (l : List α) :
    (firstDedup l).Nodup := by
  induction l with
  | nil => simp [firstDedup]
  | cons x xs ih =>
    refine List.nodup_cons.mpr ⟨?_, List.Nodup.filter _ ih⟩
    intro hmem
    have := (List.mem_filter.mp hmem).2
    simp at this

theorem firstDedup_ne_nil [DecidableEq α] (l : List α) (h : l ≠ []) :
    firstDedup l ≠ [] := by
  cases l with
  | nil => exact absurd rfl h
  | cons x xs => simp [firstDedup]

/-! ### Filter-engine lemmas -/

theorem filtered_df_eq_filter (ds : List Record) (fs : FilterSpec) :
    filtered_df ds fs = ds.filter (fullPred fs) := by
  by_cases h1 : fs.selected_platform = "All" <;>
    by_cases h2 : fs.selected_sentiment = "All" <;>
      by_cases h3 : fs.selected_media_type = "All" <;>
        · simp only [filtered_df, h1, h2, h3, ne_eq, not_true_eq_false, not_false_eq_true,
            ite_true, ite_false, if_true, if_false, List.filter_filter]
          refine List.filter_congr (fun r hr => ?_)
          simp [fullPred, h1, h2, h3, Bool.and_comm, Bool.and_left_comm, Bool.and_assoc]

/-! ### Summation lemmas -/

theorem sum_map_filter_split (f : α → Int) (p : α → Bool) (l : List α) :
    ((l.filter p).map f).sum + ((l.filter (fun a => !(p a))).map f).sum
      = (l.map f).sum := by
  induction l with
  | nil => simp
  | cons x xs ih =>
    by_cases h : p x = true
    · simp [List.filter_cons, h]
      omega
    · have h2 : p x = false := by simpa using h
      simp [List.filter_cons, h2]
      omega

theorem groups_sum (keys : List String) (l : List Record)
    (hnd : keys.Nodup) (hcov : ∀ r ∈ l, r.platform ∈ keys) :
    (keys.map (fun k => sumEng (l.filter (fun r => r.platform = k)))).sum = sumEng l := by
  induction keys generalizing l with
  | nil =>
    have hl : l = [] := by
      cases l with
      | nil => rfl
      | cons r rs => exact absurd (hcov r (List.mem_cons_self r rs)) (List.not_mem_nil _)
    simp [hl, sumEng]
  | cons k ks ih =>
    rcases List.nodup_cons.mp hnd with ⟨hk, hksnd⟩
    have hfe : ∀ k2, k2 ≠ k →
        l.filter (fun r => decide (r.platform = k2)) =
          (l.filter (fun r => !(decide (r.platform = k)))).filter
            (fun r => decide (r.platform = k2)) := by
      intro k2 hne
      rw [List.filter_filter]
      refine List.filter_congr (fun r hr => ?_)
      by_cases hrk : r.platform = k2
      · simp [hrk, hne]
      · simp [hrk]
    have hcov2 : ∀ r ∈ l.filter (fun r => !(decide (r.platform = k))), r.platform ∈ ks := by
      intro r hr
      rcases List.mem_filter.mp hr with ⟨hmem, hbool⟩
      have hne : ¬ r.platform = k := by simpa using hbool
      rcases List.mem_cons.mp (hcov r hmem) with hin | hin
      · exact absurd hin hne
      · exact hin
    have hmaps : (ks.map (fun k2 => sumEng (l.filter (fun r => r.platform = k2))))
        = ks.map (fun k2 => sumEng ((l.filter (fun r => !(decide (r.platform = k)))).filter
            (fun r => r.platform = k2))) := by
      refine List.map_congr_left (fun k2 hk2 => ?_)
      have hne : k2 ≠ k := fun h => hk (h ▸ hk2)
      rw [hfe k2 hne]
    simp only [List.map_cons, List.sum_cons, hmaps,
      ih (l.filter (fun r => !(decide (r.platform = k)))) hksnd hcov2]
    exact sum_map_filter_split (fun r => r.engagements) (fun r => decide (r.platform = k)) l

/-! ### Cleaning lemmas -/

theorem cleanRecord_bad_numeric (r : RawRecord) (s : String)
    (he : r.engagements = some s) (hn : parseNumeric s = none) :
    cleanRecord r = none := by
  unfold cleanRecord
  cases parseDate r.date <;> simp [he, hn]

theorem cleanRecord_bad_date (r : RawRecord) (hd : parseDate r.date = none) :
    cleanRecord r = none := by
  unfold cleanRecord
  simp [hd]

theorem cleanRecord_fields (r : RawRecord) (c : Record) (h : cleanRecord r = some c) :
    c.platform = r.platform ∧ c.sentiment = r.sentiment ∧
    c.location = r.location ∧ c.media_type = r.media_type := by
  cases hd : parseDate r.date with
  | none =>
    rw [cleanRecord_bad_date r hd] at h
    exact absurd h (by simp)
  | some d =>
    cases he : r.engagements with
    | none =>
      have heq : cleanRecord r = some ⟨d, r.platform, r.sentiment, r.location, 0, r.media_type⟩ := by
        simp [cleanRecord, hd, he]
      rw [heq] at h
      simp only [Option.some.injEq] at h
      subst h
      exact ⟨rfl, rfl, rfl, rfl⟩
    | some s =>
      cases hn : parseNumeric s with
      | none =>
        rw [cleanRecord_bad_numeric r s he hn] at h
        exact absurd h (by simp)
      | some n =>
        have heq : cleanRecord r = some ⟨d, r.platform, r.sentiment, r.location, n, r.media_type⟩ := by
          simp [cleanRecord, hd, he, hn]
        rw [heq] at h
        simp only [Option.some.injEq] at h
        subst h
        exact ⟨rfl, rfl, rfl, rfl⟩

theorem cleanRecord_none_engagements (r : RawRecord) (c : Record)
    (h : cleanRecord r = some c) (he : r.engagements = none) :
    c.engagements = 0 := by
  cases hd : parseDate r.date with
  | none =>
    rw [cleanRecord_bad_date r hd] at h
    exact absurd h (by simp)
  | some d =>
    have heq : cleanRecord r = some ⟨d, r.platform, r.sentiment, r.location, 0, r.media_type⟩ := by
      simp [cleanRecord, hd, he]
    rw [heq] at h
    simp only [Option.some.injEq] at h
    subst h
    rfl

theorem clean_rows_of_mem_none (rows : List RawRecord) (r : RawRecord)
    (hr : r ∈ rows) (hnone : cleanRecord r = none) :
    clean_rows rows = none := by
  induction rows with
  | nil => exact absurd hr (List.not_mem_nil r)
  | cons a rest ih =>
    rcases List.mem_cons.mp hr with rfl | hmem
    · simp [clean_rows, hnone]
    · cases ha : cleanRecord a <;> simp [clean_rows, ha, ih hmem]

theorem clean_rows_forall2 (rows : List RawRecord) (ds : List Record)
    (h : clean_rows rows = some ds) :
    List.Forall₂ (fun (c : Record) (r : RawRecord) => cleanRecord r = some c) ds rows := by
  induction rows generalizing ds with
  | nil =>
    simp only [clean_rows, Option.some.injEq] at h
    subst h
    exact List.Forall₂.nil
  | cons a rest ih =>
    cases ha : cleanRecord a with
    | none => rw [clean_rows, ha] at h; exact absurd h (by simp)
    | some c =>
      cases hr : clean_rows rest with
      | none => rw [clean_rows, ha, hr] at h; exact absurd h (by simp)
      | some cs =>
        rw [clean_rows, ha, hr] at h
        simp only [Option.some.injEq] at h
        subst h
        exact List.Forall₂.cons ha (ih cs hr)

theorem clean_data_none_of_rows (t : RawTable) (h : clean_rows t.rows = none) :
    clean_data t = none := by
  unfold clean_data
  split_ifs <;> simp [h]

theorem clean_data_some_rows (t : RawTable) (ds : List Record)
    (h : clean_data t = some ds) : clean_rows t.rows = some ds := by
  unfold clean_data at h
  split_ifs at h
  exact h

/-! ### Peak-date lemmas -/

theorem idxmaxFrom_spec (l : List (Date × Int)) :
    ∀ best : Date × Int, ∃ q : Date × Int,
      (q = best ∨ q ∈ l) ∧ idxmaxFrom best l = q.1 ∧ best.2 ≤ q.2 ∧ ∀ p ∈ l, p.2 ≤ q.2 := by
  induction l with
  | nil => exact fun best => ⟨best, Or.inl rfl, rfl, le_refl _, by simp⟩
  | cons p ps ih =>
    intro best
    by_cases h : best.2 < p.2
    · rcases ih p with ⟨q, hq, heq, hle, hall⟩
      refine ⟨q, ?_, ?_, le_trans (le_of_lt h) hle, ?_⟩
      · rcases hq with rfl | hq
        · exact Or.inr (List.mem_cons_self _ _)
        · exact Or.inr (List.mem_cons_of_mem _ hq)
      · simpa [idxmaxFrom, h] using heq
      · intro x hx
        rcases List.mem_cons.mp hx with rfl | hx
        · exact hle
        · exact hall x hx
    · rcases ih best with ⟨q, hq, heq, hle, hall⟩
      refine ⟨q, ?_, ?_, hle, ?_⟩
      · rcases hq with rfl | hq
        · exact Or.inl rfl
        · exact Or.inr (List.mem_cons_of_mem _ hq)
      · simpa [idxmaxFrom, h] using heq
      · intro x hx
        rcases List.mem_cons.mp hx with rfl | hx
        · exact le_trans (le_of_not_lt h) hle
        · exact hall x hx

theorem peakDate_spec (series : List (Date × Int)) (h : series ≠ []) :
    ∃ q ∈ series, peakDate series = q.1 ∧ ∀ p ∈ series, p.2 ≤ q.2 := by
  cases series with
  | nil => exact absurd rfl h
  | cons p ps =>
    rcases idxmaxFrom_spec ps p with ⟨q, hq, heq, hle, hall⟩
    refine ⟨q, ?_, ?_, ?_⟩
    · rcases hq with rfl | hq
      · exact List.mem_cons_self _ _
      · exact List.mem_cons_of_mem _ hq
    · simpa [peakDate] using heq
    · intro x hx
      rcases List.mem_cons.mp hx with rfl | hx
      · exact hle
      · exact hall x hx

/-! ### Nonemptiness lemmas -/

theorem sortDesc_ne_nil (key : α → Int) (l : List α) (h : l ≠ []) :
    sortDesc key l ≠ [] := by
  intro hcontra
  have := congrArg List.length hcontra
  rw [length_sortDesc] at this
  exact h (List.length_eq_zero.mp (by simpa using this))

theorem engagement_by_date_ne_nil (ds : List Record) (h : ds ≠ []) :
    engagement_by_date ds ≠ [] := by
  unfold engagement_by_date sortedDates
  intro hcontra
  rw [List.map_eq_nil_iff] at hcontra
  refine sortDesc_ne_nil _ _ ?_ hcontra
  refine firstDedup_ne_nil _ ?_
  simpa [List.map_eq_nil_iff] using h

theorem sentimentCounts_ne_nil (ds : List Record) (h : ds ≠ []) :
    sentimentCounts ds ≠ [] := by
  unfold sentimentCounts
  refine sortDesc_ne_nil _ _ ?_
  intro hcontra
  rw [List.map_eq_nil_iff] at hcontra
  refine firstDedup_ne_nil _ ?_ hcontra
  simpa [List.map_eq_nil_iff] using h

theorem cleanRecord_isSome (r : RawRecord) (hd : parseDate r.date ≠ none)
    (he : ∀ s, r.engagements = some s → parseNumeric s ≠ none) :
    cleanRecord r ≠ none := by
  cases hdd : parseDate r.date with
  | none => exact absurd hdd hd
  | some d =>
    cases hee : r.engagements with
    | none => simp [cleanRecord, hdd, hee]
    | some s =>
      cases hnn : parseNumeric s with
      | none => exact absurd hnn (he s hee)
      | some n => simp [cleanRecord, hdd, hee, hnn]

theorem clean_rows_isSome (rows : List RawRecord)
    (h : ∀ r ∈ rows, cleanRecord r ≠ none) : ∃ ds, clean_rows rows = some ds := by
  induction rows with
  | nil => exact ⟨[], rfl⟩
  | cons a rest ih =>
    rcases ih (fun r hr => h r (List.mem_cons_of_mem a hr)) with ⟨ds, hds⟩
    cases ha : cleanRecord a with
    | none => exact absurd ha (h a (List.mem_cons_self a rest))
    | some c => exact ⟨c :: ds, by simp [clean_rows, ha, hds]⟩

/-! ### Claim theorems -/

/-- C4: for every table missing one or more required columns after name
normalization, validation fails and the reported missing-column list
carries every absent required column, never a proper subset. -/
theorem missing_columns_complete (t : RawTable) (c : String)
    (hc : c ∈ requiredColumns) (hmiss : c ∉ t.header.map normalizeColName) :
    c ∈ missingColumns t.header ∧ clean_data t = none := by
  have hmem : c ∈ missingColumns t.header := by
    refine List.mem_filter.mpr ⟨hc, ?_⟩
    simpa using hmiss
  refine ⟨hmem, ?_⟩
  unfold clean_data
  rw [if_pos (List.ne_nil_of_mem hmem)]

theorem missing_columns_complete_witness :
    ("location") ∈ missingColumns tMissing.header ∧ clean_data tMissing = none :=
  missing_columns_complete tMissing ("location") (by decide) (by decide)

/-- C5: an unparseable value in the date column fails normalization for the
whole table, and on that failure the pipeline produces nothing: no
filtering, aggregation or insight generation runs. -/
theorem bad_date_halts_pipeline (t : RawTable) (fs : FilterSpec) (r : RawRecord)
    (hr : r ∈ t.rows) (hbad : parseDate r.date = none) :
    clean_data t = none ∧ runPipeline t fs = none := by
  have h1 : clean_rows t.rows = none :=
    clean_rows_of_mem_none t.rows r hr (cleanRecord_bad_date r hbad)
  have h2 : clean_data t = none := clean_data_none_of_rows t h1
  refine ⟨h2, ?_⟩
  unfold runPipeline
  rw [h2]

theorem bad_date_halts_pipeline_witness :
    clean_data tBadDate = none ∧ runPipeline tBadDate fsAll = none :=
  bad_date_halts_pipeline tBadDate fsAll rawRowBadDate (by decide) (by decide)

/-- C1 counterexample: a schema-valid table with a non-numeric engagements
cell makes `clean_data` fail outright (no Dataset is returned), instead of
treating the value as 0. -/
theorem clean_data_nonnumeric_fails :
    missingColumns tBadEng.header = [] ∧
    rawRowBad ∈ tBadEng.rows ∧
    rawRowBad.engagements = some ("n/a") ∧
    parseNumeric ("n/a") = none ∧
    clean_data tBadEng = none := by decide

/-- C1 amended: for every schema-valid table, a missing (empty) engagements
cell is treated as 0 for that record without failing the run, while a cell
that is present but fails numeric parsing fails the whole normalization;
rows with missing engagements never cause a failure by themselves. -/
theorem clean_data_engagements_policy (t : RawTable) :
    (∀ ds, clean_data t = some ds →
      List.Forall₂ (fun (c : Record) (r : RawRecord) =>
        r.engagements = none → c.engagements = 0) ds t.rows) ∧
    (∀ r ∈ t.rows, ∀ s, r.engagements = some s → parseNumeric s = none →
      clean_data t = none) ∧
    (missingColumns t.header = [] →
      (∀ r ∈ t.rows, parseDate r.date ≠ none ∧
        (∀ s, r.engagements = some s → parseNumeric s ≠ none)) →
      ∃ ds, clean_data t = some ds) := by
  refine ⟨?_, ?_, ?_⟩
  · intro ds h
    have hf := clean_rows_forall2 t.rows ds (clean_data_some_rows t ds h)
    exact hf.imp (fun c r hc he => cleanRecord_none_engagements r c hc he)
  · intro r hr s he hn
    exact clean_data_none_of_rows t
      (clean_rows_of_mem_none t.rows r hr (cleanRecord_bad_numeric r s he hn))
  · intro hcols hrows
    rcases clean_rows_isSome t.rows
      (fun r hr => cleanRecord_isSome r (hrows r hr).1 (hrows r hr).2) with ⟨ds, hds⟩
    refine ⟨ds, ?_⟩
    unfold clean_data
    rw [if_neg (by simp [hcols])]
    exact hds

theorem clean_data_engagements_policy_witness :
    List.Forall₂ (fun (c : Record) (r : RawRecord) =>
        r.engagements = none → c.engagements = 0) [rec1, recNoEng] tNoEng.rows ∧
    clean_data tBadEng = none ∧
    (∃ ds, clean_data tNoEng = some ds) :=
  ⟨(clean_data_engagements_policy tNoEng).1 [rec1, recNoEng] (by decide),
   (clean_data_engagements_policy tBadEng).2.1 rawRowBad (by decide) ("n/a") (by decide) (by decide),
   (clean_data_engagements_policy tNoEng).2.2 (by decide) (by decide)⟩

/-- C10: normalization rewrites only the date and engagements columns; the
platform, sentiment, location and media-type values of every record survive
cleaning unchanged, in order. -/
theorem clean_data_frame_preservation (t : RawTable) (ds : List Record)
    (h : clean_data t = some ds) :
    List.Forall₂ (fun (c : Record) (r : RawRecord) =>
      c.platform = r.platform ∧ c.sentiment = r.sentiment ∧
      c.location = r.location ∧ c.media_type = r.media_type) ds t.rows :=
  (clean_rows_forall2 t.rows ds (clean_data_some_rows t ds h)).imp
    (fun c r hc => cleanRecord_fields r c hc)

theorem clean_data_frame_preservation_witness :
    List.Forall₂ (fun (c : Record) (r : RawRecord) =>
      c.platform = r.platform ∧ c.sentiment = r.sentiment ∧
      c.location = r.location ∧ c.media_type = r.media_type) [rec1, recNoEng] tNoEng.rows :=
  clean_data_frame_preservation tNoEng [rec1, recNoEng] (by decide)

/-- C2 counterexample: with a record whose platform is literally `All`,
selecting the value `All` as the platform constraint does not filter down
to the records bearing it: the record with platform `X` passes the filter
as well, because the selection collides with the no-constraint sentinel. -/
theorem filtered_df_all_sentinel_collision :
    recAll.platform = ("All") ∧
    rec1.platform ≠ ("All") ∧
    fsAll.selected_platform = ("All") ∧
    filtered_df [recAll, rec1] fsAll = [recAll, rec1] := by decide

/-- C2 amended: the no-constraint sentinel is the literal string `All`; a
record lies in the filtered table exactly when its date is in range and
each category either matches the selection or the selection is the string
`All`, so a selection other than `All` filters to exactly the records
bearing it, while a category literally named `All` can never be selected
as a constraint. -/
theorem filtered_df_mem_characterization (ds : List Record) (fs : FilterSpec) (r : Record) :
    r ∈ filtered_df ds fs ↔
      r ∈ ds ∧
      fs.start_date.key ≤ r.date.key ∧ r.date.key ≤ fs.end_date.key ∧
      (fs.selected_platform = "All" ∨ r.platform = fs.selected_platform) ∧
      (fs.selected_sentiment = "All" ∨ r.sentiment = fs.selected_sentiment) ∧
      (fs.selected_media_type = "All" ∨ r.media_type = fs.selected_media_type) := by
  rw [filtered_df_eq_filter, List.mem_filter]
  simp [fullPred, dateInRange, and_assoc]

/-- C8: filtering is idempotent; applying the same selections to an
already-filtered table returns it unchanged. -/
theorem filtered_df_idempotent (ds : List Record) (fs : FilterSpec) :
    filtered_df (filtered_df ds fs) fs = filtered_df ds fs := by
  rw [filtered_df_eq_filter ds fs, filtered_df_eq_filter, List.filter_filter]
  exact List.filter_congr (fun a ha => by cases h : fullPred fs a <;> simp [h])

/-- Summing the per-platform engagement aggregate recovers the engagement
total of the table it was computed from. -/
theorem aggregate_platform_sum (l : List Record) :
    ((aggregate_platform_engagement l).map (fun p => p.2)).sum = sumEng l := by
  unfold aggregate_platform_engagement
  rw [((sortDesc_perm (fun p : String × Int => p.2) _).map (fun p : String × Int => p.2)).sum_eq,
    List.map_map]
  exact groups_sum _ l (firstDedup_nodup _)
    (fun r hr => (mem_firstDedup _ _).mpr (List.mem_map_of_mem _ hr))

/-- C7: the per-platform sums of the platform-engagement aggregate add up
to the total engagements of the whole filtered table. -/
theorem platform_sum_total (ds : List Record) (fs : FilterSpec) :
    ((aggregate_platform_engagement (filtered_df ds fs)).map (fun p => p.2)).sum
      = sumEng (filtered_df ds fs) :=
  aggregate_platform_sum (filtered_df ds fs)

/-- C6: the location aggregate never exceeds 5 entries and is descending in
its summed engagements; when every location is null the aggregate is empty
and the location insight generator emits nothing instead of failing. -/
theorem location_aggregate_spec (ds : List Record) :
    (aggregate_location_engagement ds).length ≤ 5 ∧
    List.Pairwise (fun (a b : String × Int) => b.2 ≤ a.2) (aggregate_location_engagement ds) ∧
    ((∀ r ∈ ds, r.location = none) →
      aggregate_location_engagement ds = [] ∧ get_location_insights ds = []) := by
  refine ⟨?_, ?_, ?_⟩
  · exact List.length_take_le 5 _
  · exact List.Pairwise.sublist (List.take_sublist _ _)
      (sortDesc_sorted (fun p : String × Int => p.2) _)
  · intro h
    have hlk : locationKeys ds = [] := by
      unfold locationKeys
      have hfm : ds.filterMap (fun r => r.location) = [] :=
        List.filterMap_eq_nil_iff.mpr (fun r hr => h r hr)
      rw [hfm]
      rfl
    have hagg : aggregate_location_engagement ds = [] := by
      unfold aggregate_location_engagement
      rw [hlk]
      rfl
    refine ⟨hagg, ?_⟩
    have hall : ds.all (fun r => r.location.isNone) = true :=
      List.all_eq_true.mpr (fun r hr => by rw [h r hr]; rfl)
    unfold get_location_insights
    rw [hall]
    simp

theorem location_aggregate_spec_witness :
    (aggregate_location_engagement [recNull]).length ≤ 5 ∧
    aggregate_location_engagement [recNull] = [] ∧
    get_location_insights [recNull] = [] :=
  ⟨(location_aggregate_spec [recNull]).1,
   ((location_aggregate_spec [recNull]).2.2 (by decide)).1,
   ((location_aggregate_spec [recNull]).2.2 (by decide)).2⟩

theorem length_sentimentCounts (ds : List Record) :
    (sentimentCounts ds).length = (firstDedup (ds.map (fun r => r.sentiment))).length := by
  unfold sentimentCounts
  rw [length_sortDesc, List.length_map]

/-- C3 counterexample: two rows sharing one date give a date-grouped series
with a single data point, yet the trend generator still emits insights,
because its guard tests the row count, not the series length. -/
theorem trend_insights_single_date_emits :
    (engagement_by_date [rec1, rec2]).length = 1 ∧
    get_engagement_trend_insights [rec1, rec2] ≠ [] := by decide

/-- C3 amended: the trend generator emits nothing exactly when the filtered
table has fewer than 2 ROWS; with 2 or more rows it reports the date
carrying the maximum summed engagement of the chronological series, the
direction `upward` exactly when the last chronological value exceeds the
first (else `stable or declining`), and the mean daily engagement rounded
to the nearest whole number. -/
theorem trend_insights_spec (ds : List Record) :
    (ds.length < 2 → get_engagement_trend_insights ds = []) ∧
    (2 ≤ ds.length →
      ∃ pk ∈ engagement_by_date ds,
        (∀ p ∈ engagement_by_date ds, p.2 ≤ pk.2) ∧
        peakDate (engagement_by_date ds) = pk.1 ∧
        get_engagement_trend_insights ds =
          [peakLine pk.1,
           trendLine (decide (lastVal (engagement_by_date ds) > firstVal (engagement_by_date ds))),
           avgLine (seriesMeanRounded (engagement_by_date ds))]) := by
  constructor
  · intro h
    unfold get_engagement_trend_insights
    rw [if_pos h]
  · intro h
    have hne : ds ≠ [] := by
      intro hnil
      rw [hnil] at h
      simp at h
    have hsne := engagement_by_date_ne_nil ds hne
    rcases peakDate_spec _ hsne with ⟨q, hqmem, hqeq, hqmax⟩
    refine ⟨q, hqmem, hqmax, hqeq, ?_⟩
    unfold get_engagement_trend_insights
    rw [if_neg (by omega), if_neg (by simp [List.isEmpty_iff, hsne]), hqeq]

theorem trend_insights_spec_witness :
    get_engagement_trend_insights ([] : List Record) = [] ∧
    (∃ pk ∈ engagement_by_date [rec1, rec3],
      (∀ p ∈ engagement_by_date [rec1, rec3], p.2 ≤ pk.2) ∧
      peakDate (engagement_by_date [rec1, rec3]) = pk.1 ∧
      get_engagement_trend_insights [rec1, rec3] =
        [peakLine pk.1,
         trendLine (decide (lastVal (engagement_by_date [rec1, rec3])
           > firstVal (engagement_by_date [rec1, rec3]))),
         avgLine (seriesMeanRounded (engagement_by_date [rec1, rec3]))]) :=
  ⟨(trend_insights_spec []).1 (by decide), (trend_insights_spec [rec1, rec3]).2 (by decide)⟩

/-- C9: for every non-empty table the sentiment insight opens by naming a
sentiment of maximal count together with its share of the row count to one
decimal place, additionally names a sentiment of minimal count exactly when
more than two distinct sentiments exist, and always closes with the fixed
strategic-framing sentence. -/
theorem sentiment_insights_spec (ds : List Record) (hne : ds ≠ []) :
    ∃ top low,
      (sentimentCounts ds).head? = some top ∧
      (∀ p ∈ sentimentCounts ds, p.2 ≤ top.2) ∧
      (sentimentCounts ds).getLast? = some low ∧
      (∀ p ∈ sentimentCounts ds, low.2 ≤ p.2) ∧
      (sentimentCounts ds).length = (firstDedup (ds.map (fun r => r.sentiment))).length ∧
      get_sentiment_insights ds =
        [dominantLine top.1 top.2 ds.length] ++
          (if (sentimentCounts ds).length > 2 then [minorityLine low.1] else []) ++
          [strategicLine] ∧
      (get_sentiment_insights ds).getLast? = some strategicLine := by
  have hcne : sentimentCounts ds ≠ [] := sentimentCounts_ne_nil ds hne
  have hsorted : List.Pairwise
      (fun (a b : String × Nat) => ((b.2 : Int)) ≤ ((a.2 : Int))) (sentimentCounts ds) := by
    unfold sentimentCounts
    exact sortDesc_sorted _ _
  have hempty : ds.isEmpty = false := by
    cases ds with
    | nil => exact absurd rfl hne
    | cons a l => rfl
  cases hc : sentimentCounts ds with
  | nil => exact absurd hc hcne
  | cons top rest =>
    rw [hc] at hsorted
    have hlastne : top :: rest ≠ [] := by simp
    have hgl : (top :: rest).getLast? = some ((top :: rest).getLast hlastne) :=
      List.getLast?_eq_getLast _ hlastne
    refine ⟨top, (top :: rest).getLast hlastne, ?_, ?_, ?_, ?_, ?_, ?_, ?_⟩
    · rfl
    · intro p hp
      exact_mod_cast sorted_head_max (fun p : String × Nat => ((p.2 : Int))) top rest hsorted p hp
    · exact hgl
    · intro p hp
      exact_mod_cast sorted_getLast_min (fun p : String × Nat => ((p.2 : Int)))
        (top :: rest) hlastne hsorted p hp
    · rw [← hc]
      exact length_sentimentCounts ds
    · simp only [get_sentiment_insights, hempty, Bool.false_eq_true, if_false, hc, hgl,
        List.head?_cons]
    · have hout : get_sentiment_insights ds =
          [dominantLine top.1 top.2 ds.length] ++
            (if (top :: rest).length > 2 then [minorityLine ((top :: rest).getLast hlastne).1]
              else []) ++ [strategicLine] := by
        simp only [get_sentiment_insights, hempty, Bool.false_eq_true, if_false, hc, hgl,
          List.head?_cons]
      rw [hout]
      exact List.getLast?_concat _

theorem sentiment_insights_spec_witness :
    ∃ top low,
      (sentimentCounts [rec1, rec2, rec3]).head? = some top ∧
      (∀ p ∈ sentimentCounts [rec1, rec2, rec3], p.2 ≤ top.2) ∧
      (sentimentCounts [rec1, rec2, rec3]).getLast? = some low ∧
      (∀ p ∈ sentimentCounts [rec1, rec2, rec3], low.2 ≤ p.2) ∧
      (sentimentCounts [rec1, rec2, rec3]).length
        = (firstDedup ([rec1, rec2, rec3].map (fun r => r.sentiment))).length ∧
      get_sentiment_insights [rec1, rec2, rec3] =
        [dominantLine top.1 top.2 ([rec1, rec2, rec3] : List Record).length] ++
          (if (sentimentCounts [rec1, rec2, rec3]).length > 2 then [minorityLine low.1] else []) ++
          [strategicLine] ∧
      (get_sentiment_insights [rec1, rec2, rec3]).getLast? = some strategicLine :=
  sentiment_insights_spec [rec1, rec2, rec3] (by decide)

end CraveCraze

